import Mathlib

/-
Verification of the tile data serving and elevation query engine
(serve_data.js, utils.js) of the tileserver-gl repository.

JavaScript numbers are modelled as rationals (ℚ), integers as ℤ/ℕ,
fallible operations as Option/Except.  External boundaries (the
SphericalMercator projection library, the raster decode capability of
serve_rendered.getBatchElevationsFromTile, the container byte readers)
are parameters of the embedded functions, as the specification treats
them as collaborator contracts.
-/

namespace TileServer

/-- Tile metadata record of a registered data source (the `tileJSON` object
built by serve_data.add).  Fields that JavaScript leaves `undefined` are
`Option`s. -/
structure TileJSON where
  format : Option String
  encoding : Option String
  tileSize : Option ℕ
  minzoom : Option ℚ
  maxzoom : Option ℚ
deriving DecidableEq, Repr

/-- One entry of the source registry (`repo[id]` as built by serve_data.add).
`hasSource`/`sourceType` model the truthiness checks performed by
validateElevationSource; the actual container handle is hidden behind the
fetch parameter of the handlers. -/
structure RepoItem where
  hasSource : Bool
  tileJSON : Option TileJSON
  sourceType : Option String
  sparse : Bool
deriving DecidableEq, Repr

/-- Validated terrain-source record returned by validateElevationSource
(serve_data.js, unnamed part_000 lines 225-233). -/
structure SourceInfo where
  sourceType : String
  encoding : String
  format : String
  tileSize : ℕ
  minzoom : ℚ
  maxzoom : ℚ
deriving DecidableEq, Repr

/-- Source registry: mapping from source id to its descriptor. -/
abbrev Repo := String → Option RepoItem

/-- validateElevationSource from serve_data.js (part_000 lines 179-234):
checks the repo item, its source/tileJSON/sourceType, the terrain encoding,
the raster format and the zoom bounds, and returns either the HTTP error
(status, message) sent by the handler or the validated source info.
Note `tileSize: tileJSON.tileSize || 512`: a missing (or zero, falsy)
tileSize defaults to 512. -/
def validateElevationSource (repo : Repo) (id : String) :
    Except (ℕ × String) SourceInfo :=
  match repo id with
  | none => .error (404, "")
  | some item =>
    if !item.hasSource then .error (404, "Missing source")
    else
      match item.tileJSON with
      | none => .error (404, "Missing tileJSON")
      | some tj =>
        match item.sourceType with
        | none => .error (404, "Missing sourceType")
        | some st =>
          if st ≠ "pmtiles" ∧ st ≠ "mbtiles" then
            .error (400, "Invalid sourceType. Must be pmtiles or mbtiles.")
          else
            match tj.encoding with
            | none => .error (400, "Missing tileJSON.encoding")
            | some enc =>
              if enc ≠ "terrarium" ∧ enc ≠ "mapbox" then
                .error (400, "Invalid encoding. Must be terrarium or mapbox.")
              else
                match tj.format with
                | none => .error (400, "Missing tileJSON.format")
                | some fmt =>
                  if fmt ≠ "webp" ∧ fmt ≠ "png" then
                    .error (400, "Invalid format. Must be webp or png.")
                  else
                    match tj.minzoom, tj.maxzoom with
                    | some mz, some Mz =>
                      .ok { sourceType := st, encoding := enc, format := fmt,
                            tileSize := (match tj.tileSize with
                                         | none => 512
                                         | some t => if t = 0 then 512 else t),
                            minzoom := mz, maxzoom := Mz }
                    | _, _ => .error (400, "Missing tileJSON zoom bounds")

/-- An elevation query point {lon, lat, z} (already validated: all fields
finite numbers). -/
structure EPoint where
  lon : ℚ
  lat : ℚ
  z : ℚ
deriving DecidableEq, Repr

/-- Result of projecting a point: containing tile coordinates and the
fractional pixel offset within that tile. -/
structure TilePix where
  tileX : ℤ
  tileY : ℤ
  pixelX : ℚ
  pixelY : ℚ
deriving DecidableEq, Repr

/-- The coordinate utility lonLatToTilePixel(lon, lat, zoom, tileSize).
Its Web Mercator implementation lives outside the given sources, so the
embedding is parametric in it. -/
abbrev Proj := ℚ → ℚ → ℚ → ℕ → TilePix

/-- A pixel reference stored in a tile group: {pixelX, pixelY, index}
(part_000 line 297). -/
structure PixelRef where
  pixelX : ℚ
  pixelY : ℚ
  index : ℕ
deriving DecidableEq, Repr

/-- The composite tile-group key `zoom,tileX,tileY` (part_000 line 293);
the clamped zoom may be fractional. -/
abbrev TileKey := ℚ × ℤ × ℤ

/-- The parameters object `{ encoding, format, tile_size }` passed to
serve_rendered.getBatchElevationsFromTile (part_000 line 319). -/
structure EncParams where
  encoding : String
  format : String
  tile_size : ℕ
deriving DecidableEq, Repr

/-- The external per-pixel elevation decode capability provided by
serve_rendered.getBatchElevationsFromTile: given tile bytes, the encoding
parameters and a pixel position, it yields the decoded elevation (or null).
The engine applies it to every pixel of a group and scatters the results by
index. -/
abbrev ElevFn (D : Type) := D → EncParams → ℚ → ℚ → Option ℚ

/-- Unified tile fetch as seen by the elevation engine: (zoom, tileX, tileY)
to tile data or absent (headers are not consulted here). -/
abbrev Fetch (D : Type) := ℚ → ℤ → ℤ → Option D

/-- Zoom clamping of part_000 lines 280-286: `if (zoom < minzoom) zoom =
minzoom; if (zoom > maxzoom) zoom = maxzoom;`. -/
def clampZoom (minz maxz z : ℚ) : ℚ :=
  let z1 := if z < minz then minz else z
  if z1 > maxz then maxz else z1

/-- Clamped zoom and projection of one point (part_000 lines 280-292):
the projection is invoked with the source's tileSize. -/
def projAt (info : SourceInfo) (proj : Proj) (p : EPoint) : ℚ × TilePix :=
  let zoom := clampZoom info.minzoom info.maxzoom p.z
  (zoom, proj p.lon p.lat zoom info.tileSize)

/-- Group key of a point: (clamped zoom, tileX, tileY). -/
def keyOf (info : SourceInfo) (proj : Proj) (p : EPoint) : TileKey :=
  let (zoom, tp) := projAt info proj p
  (zoom, tp.tileX, tp.tileY)

/-- Pixel reference of the point at input index m. -/
def pixelRefOf (info : SourceInfo) (proj : Proj) (m : ℕ) (p : EPoint) :
    PixelRef :=
  ⟨(projAt info proj p).2.pixelX, (projAt info proj p).2.pixelY, m⟩

/-- Insertion into the insertion-ordered tile-group map (JavaScript `Map`):
a new key is appended at the end, an existing key has the pixel pushed onto
its list (part_000 lines 294-297). -/
def insertGrp {κ β : Type} [DecidableEq κ] (k : κ) (b : β) :
    List (κ × List β) → List (κ × List β)
  | [] => [(k, [b])]
  | g :: gs => if g.1 = k then (g.1, g.2 ++ [b]) :: gs else g :: insertGrp k b gs

/-- Folding a keyed sequence into the group map, preserving first-occurrence
key order. -/
def groupPairs {κ β : Type} [DecidableEq κ] (gs : List (κ × List β)) :
    List (κ × β) → List (κ × List β)
  | [] => gs
  | q :: qs => groupPairs (insertGrp q.1 q.2 gs) qs

/-- The keyed pixel sequence of the input points: point i (starting at m)
contributes (key, pixel reference with index i). -/
def taggedPixels (info : SourceInfo) (proj : Proj) (m : ℕ) :
    List EPoint → List (TileKey × PixelRef)
  | [] => []
  | p :: ps => (keyOf info proj p, pixelRefOf info proj m p) ::
      taggedPixels info proj (m + 1) ps

/-- The tile-group map of a batch (part_000 lines 276-298). -/
def buildGroups (info : SourceInfo) (proj : Proj) (points : List EPoint) :
    List (TileKey × List PixelRef) :=
  groupPairs [] (taggedPixels info proj 0 points)

/-- The per-group loop of part_000 lines 304-326: fetch each group's tile
once; on absence skip the group; otherwise decode every pixel of the group
and write each elevation into the results array at the pixel's input
index. -/
def processGroups {D : Type} (fetch : Fetch D) (elevFn : ElevFn D)
    (ep : EncParams) :
    List (TileKey × List PixelRef) → List (Option ℚ) → List (Option ℚ)
  | [], r => r
  | g :: gs, r =>
    match fetch g.1.1 g.1.2.1 g.1.2.2 with
    | none => processGroups fetch elevFn ep gs r
    | some d =>
        processGroups fetch elevFn ep gs
          ((g.2.map (fun pr => (pr.index, elevFn d ep pr.pixelX pr.pixelY))).foldl
            (fun r iv => r.set iv.1 iv.2) r)

/-- getBatchElevations (part_000 lines 264-329): group the points by tile,
then process each group; the results array starts as all-null and is filled
in by index.  The second component records, in processing order, the tile
keys fetched by the per-group loop (one fetch per group). -/
def getBatchElevations {D : Type} (info : SourceInfo) (proj : Proj)
    (fetch : Fetch D) (elevFn : ElevFn D) (points : List EPoint) :
    List (Option ℚ) × List TileKey :=
  let gs := buildGroups info proj points
  (processGroups fetch elevFn ⟨info.encoding, info.format, info.tileSize⟩ gs
      (List.replicate points.length none),
   gs.map (fun g => g.1))

/-- The per-point meaning of the batch algorithm: clamp the zoom, project,
fetch the point's own tile, and decode its pixel; an absent tile yields
null. -/
def pointElev {D : Type} (info : SourceInfo) (proj : Proj) (fetch : Fetch D)
    (elevFn : ElevFn D) (p : EPoint) : Option ℚ :=
  let zoom := clampZoom info.minzoom info.maxzoom p.z
  let tp := proj p.lon p.lat zoom info.tileSize
  match fetch zoom tp.tileX tp.tileY with
  | none => none
  | some d => elevFn d ⟨info.encoding, info.format, info.tileSize⟩ tp.pixelX tp.pixelY

/-- Pixel lists of the group map, looked up by key (first entry wins;
keys are unique in a well-formed map). -/
def lookupGrp {κ β : Type} [DecidableEq κ] (k : κ) :
    List (κ × List β) → List β
  | [] => []
  | g :: gs => if g.1 = k then g.2 else lookupGrp k gs

/-- Values of a keyed sequence whose key equals k, in order. -/
def selectVals {κ β : Type} [DecidableEq κ] (k : κ) :
    List (κ × β) → List β
  | [] => []
  | q :: qs => if q.1 = k then q.2 :: selectVals k qs else selectVals k qs

theorem mem_selectVals {κ β : Type} [DecidableEq κ] (k : κ) (b : β)
    (qs : List (κ × β)) : b ∈ selectVals k qs ↔ (k, b) ∈ qs := by
  induction qs with
  | nil => simp [selectVals]
  | cons q qs ih =>
      rcases q with ⟨k0, b0⟩
      by_cases h : k0 = k
      · subst h
        simp [selectVals, ih, Prod.ext_iff]
      · have h2 : ¬ k = k0 := fun hc => h hc.symm
        simp [selectVals, h, ih, Prod.ext_iff, h2]

theorem lookupGrp_insertGrp {κ β : Type} [DecidableEq κ] (k k' : κ) (b : β)
    (gs : List (κ × List β)) :
    lookupGrp k (insertGrp k' b gs) =
      if k' = k then lookupGrp k gs ++ [b] else lookupGrp k gs := by
  induction gs with
  | nil =>
      by_cases h : k' = k <;> simp [insertGrp, lookupGrp, h]
  | cons g gs ih =>
      rcases g with ⟨k0, bs⟩
      simp only [insertGrp]
      by_cases h1 : k0 = k'
      · simp only [if_pos h1]
        by_cases h2 : k' = k
        · have h3 : k0 = k := h1.trans h2
          simp [lookupGrp, h3, h2]
        · have h3 : ¬ k0 = k := fun hc => h2 (h1.symm.trans hc)
          simp [lookupGrp, h3, h2]
      · simp only [if_neg h1]
        by_cases h2 : k0 = k
        · have h3 : ¬ k' = k := fun hc => h1 (h2.trans hc.symm)
          simp [lookupGrp, h2, h3]
        · simp [lookupGrp, h2, ih]

theorem keys_insertGrp_mem {κ β : Type} [DecidableEq κ] (k : κ) (b : β)
    (gs : List (κ × List β)) (h : k ∈ gs.map Prod.fst) :
    (insertGrp k b gs).map Prod.fst = gs.map Prod.fst := by
  induction gs with
  | nil => cases h
  | cons g gs ih =>
      rcases g with ⟨k0, bs⟩
      by_cases h0 : k0 = k
      · simp [insertGrp, h0]
      · have hm : k ∈ gs.map Prod.fst := by
          rw [List.map_cons] at h
          rcases List.mem_cons.mp h with hk | hm
          · exact absurd hk.symm h0
          · exact hm
        simp [insertGrp, h0, ih hm]

theorem keys_insertGrp_not_mem {κ β : Type} [DecidableEq κ] (k : κ) (b : β)
    (gs : List (κ × List β)) (h : k ∉ gs.map Prod.fst) :
    (insertGrp k b gs).map Prod.fst = gs.map Prod.fst ++ [k] := by
  induction gs with
  | nil => simp [insertGrp]
  | cons g gs ih =>
      rcases g with ⟨k0, bs⟩
      have h0 : ¬ k0 = k := by
        intro hc
        exact h (by simp [hc])
      have h1 : k ∉ gs.map Prod.fst := by
        intro hc
        exact h (by simp [hc])
      simp [insertGrp, h0, ih h1]

theorem mem_keys_insertGrp {κ β : Type} [DecidableEq κ] (k k' : κ) (b : β)
    (gs : List (κ × List β)) :
    k' ∈ (insertGrp k b gs).map Prod.fst ↔
      k' = k ∨ k' ∈ gs.map Prod.fst := by
  by_cases hm : k ∈ gs.map Prod.fst
  · rw [keys_insertGrp_mem k b gs hm]
    constructor
    · exact Or.inr
    · rintro (rfl | h)
      · exact hm
      · exact h
  · rw [keys_insertGrp_not_mem k b gs hm]
    simp [List.mem_append, or_comm]

theorem nodup_keys_insertGrp {κ β : Type} [DecidableEq κ] (k : κ) (b : β)
    (gs : List (κ × List β)) (h : (gs.map Prod.fst).Nodup) :
    ((insertGrp k b gs).map Prod.fst).Nodup := by
  by_cases hm : k ∈ gs.map Prod.fst
  · rw [keys_insertGrp_mem k b gs hm]
    exact h
  · rw [keys_insertGrp_not_mem k b gs hm]
    rw [List.nodup_append]
    refine ⟨h, List.nodup_singleton _, ?_⟩
    intro a ha hb
    rcases List.mem_singleton.mp hb with rfl
    exact hm ha

theorem lookupGrp_groupPairs {κ β : Type} [DecidableEq κ] (k : κ)
    (qs : List (κ × β)) (gs : List (κ × List β)) :
    lookupGrp k (groupPairs gs qs) = lookupGrp k gs ++ selectVals k qs := by
  induction qs generalizing gs with
  | nil => simp [groupPairs, selectVals]
  | cons q qs ih =>
      show lookupGrp k (groupPairs (insertGrp q.1 q.2 gs) qs) = _
      rw [ih, lookupGrp_insertGrp]
      by_cases h : q.1 = k
      · simp [selectVals, h, List.append_assoc]
      · simp [selectVals, h]

theorem nodup_keys_groupPairs {κ β : Type} [DecidableEq κ]
    (qs : List (κ × β)) (gs : List (κ × List β))
    (h : (gs.map Prod.fst).Nodup) :
    ((groupPairs gs qs).map Prod.fst).Nodup := by
  induction qs generalizing gs with
  | nil => exact h
  | cons q qs ih => exact ih _ (nodup_keys_insertGrp _ _ _ h)

theorem mem_keys_groupPairs {κ β : Type} [DecidableEq κ] (k : κ)
    (qs : List (κ × β)) (gs : List (κ × List β)) :
    k ∈ (groupPairs gs qs).map Prod.fst ↔
      k ∈ gs.map Prod.fst ∨ ∃ q ∈ qs, q.1 = k := by
  induction qs generalizing gs with
  | nil => simp [groupPairs]
  | cons q qs ih =>
      show k ∈ (groupPairs (insertGrp q.1 q.2 gs) qs).map Prod.fst ↔ _
      rw [ih, mem_keys_insertGrp]
      constructor
      · rintro ((rfl | h) | h)
        · exact Or.inr ⟨q, List.mem_cons_self _ _, rfl⟩
        · exact Or.inl h
        · rcases h with ⟨q', hq', hk⟩
          exact Or.inr ⟨q', List.mem_cons_of_mem _ hq', hk⟩
      · rintro (h | ⟨q', hq', hk⟩)
        · exact Or.inl (Or.inr h)
        · rcases List.mem_cons.mp hq' with rfl | hm
          · exact Or.inl (Or.inl hk.symm)
          · exact Or.inr ⟨q', hm, hk⟩

theorem lookupGrp_eq_of_mem {κ β : Type} [DecidableEq κ]
    (gs : List (κ × List β)) (k : κ) (bs : List β)
    (hn : (gs.map Prod.fst).Nodup) (hm : (k, bs) ∈ gs) :
    lookupGrp k gs = bs := by
  induction gs with
  | nil => cases hm
  | cons g gs ih =>
      rw [List.map_cons, List.nodup_cons] at hn
      rcases List.mem_cons.mp hm with rfl | hm'
      · simp [lookupGrp]
      · have hk : ¬ g.1 = k := by
          intro hc
          apply hn.1
          rw [hc]
          exact List.mem_map.mpr ⟨(k, bs), hm', rfl⟩
        simp only [lookupGrp, if_neg hk]
        exact ih hn.2 hm'

theorem mem_taggedPixels (info : SourceInfo) (proj : Proj) (m : ℕ)
    (ps : List EPoint) (q : TileKey × PixelRef) :
    q ∈ taggedPixels info proj m ps ↔
      ∃ j, ∃ hj : j < ps.length,
        q = (keyOf info proj (ps.get ⟨j, hj⟩),
             pixelRefOf info proj (m + j) (ps.get ⟨j, hj⟩)) := by
  induction ps generalizing m with
  | nil => simp [taggedPixels]
  | cons p ps ih =>
      simp only [taggedPixels, List.mem_cons, ih]
      constructor
      · rintro (rfl | ⟨j, hj, rfl⟩)
        · exact ⟨0, Nat.succ_pos _, by simp⟩
        · refine ⟨j + 1, Nat.succ_lt_succ hj, ?_⟩
          simp [Nat.add_comm, Nat.add_assoc, Nat.add_left_comm]
      · rintro ⟨j, hj, rfl⟩
        cases j with
        | zero => exact Or.inl (by simp)
        | succ j =>
            refine Or.inr ⟨j, Nat.lt_of_succ_lt_succ hj, ?_⟩
            simp [Nat.add_comm, Nat.add_assoc, Nat.add_left_comm]

/-- The sequence of `results[index] = elevation` writes performed by the
per-group loop (each group contributes its writes only when its single
fetch succeeds). -/
def groupWrites {D : Type} (fetch : Fetch D) (elevFn : ElevFn D)
    (ep : EncParams) : List (TileKey × List PixelRef) → List (ℕ × Option ℚ)
  | [] => []
  | g :: gs =>
      (match fetch g.1.1 g.1.2.1 g.1.2.2 with
       | none => []
       | some d => g.2.map (fun pr => (pr.index, elevFn d ep pr.pixelX pr.pixelY)))
      ++ groupWrites fetch elevFn ep gs

/-- Applying a write sequence to the results array. -/
def applyWrites (ws : List (ℕ × Option ℚ)) (r : List (Option ℚ)) :
    List (Option ℚ) :=
  ws.foldl (fun r iv => r.set iv.1 iv.2) r

theorem processGroups_eq_applyWrites {D : Type} (fetch : Fetch D)
    (elevFn : ElevFn D) (ep : EncParams)
    (gs : List (TileKey × List PixelRef)) (r : List (Option ℚ)) :
    processGroups fetch elevFn ep gs r =
      applyWrites (groupWrites fetch elevFn ep gs) r := by
  induction gs generalizing r with
  | nil => rfl
  | cons g gs ih =>
      simp only [processGroups, groupWrites]
      cases hf : fetch g.1.1 g.1.2.1 g.1.2.2 with
      | none => simpa [applyWrites] using ih r
      | some d =>
          simp only [applyWrites, List.foldl_append]
          exact ih _

theorem length_applyWrites (ws : List (ℕ × Option ℚ)) (r : List (Option ℚ)) :
    (applyWrites ws r).length = r.length := by
  induction ws generalizing r with
  | nil => rfl
  | cons w ws ih =>
      show (applyWrites ws (r.set w.1 w.2)).length = r.length
      rw [ih, List.length_set]

theorem applyWrites_not_written (ws : List (ℕ × Option ℚ))
    (r : List (Option ℚ)) (j : ℕ) (h : ∀ q ∈ ws, q.1 ≠ j) :
    (applyWrites ws r)[j]? = r[j]? := by
  induction ws generalizing r with
  | nil => rfl
  | cons w ws ih =>
      show (applyWrites ws (r.set w.1 w.2))[j]? = r[j]?
      rw [ih _ (fun q hq => h q (List.mem_cons_of_mem _ hq))]
      exact List.getElem?_set_ne (h w (List.mem_cons_self _ _))

theorem applyWrites_written (ws : List (ℕ × Option ℚ))
    (r : List (Option ℚ)) (j : ℕ) (v : Option ℚ)
    (hall : ∀ q ∈ ws, q.1 = j → q.2 = v) (hex : ∃ q ∈ ws, q.1 = j)
    (hj : j < r.length) :
    (applyWrites ws r)[j]? = some v := by
  induction ws generalizing r with
  | nil =>
      rcases hex with ⟨q, hq, _⟩
      cases hq
  | cons w ws ih =>
      show (applyWrites ws (r.set w.1 w.2))[j]? = some v
      by_cases hrem : ∃ q ∈ ws, q.1 = j
      · exact ih _ (fun q hq => hall q (List.mem_cons_of_mem _ hq)) hrem
          (by rw [List.length_set]; exact hj)
      · have hw : w.1 = j := by
          rcases hex with ⟨q, hq, hqj⟩
          rcases List.mem_cons.mp hq with rfl | hq'
          · exact hqj
          · exact absurd ⟨q, hq', hqj⟩ hrem
        have hv : w.2 = v := hall w (List.mem_cons_self _ _) hw
        rw [applyWrites_not_written ws _ j (fun q hq hqj => hrem ⟨q, hq, hqj⟩)]
        rw [List.getElem?_set]
        simp [hw, hj, hv]

theorem mem_groupWrites {D : Type} (fetch : Fetch D) (elevFn : ElevFn D)
    (ep : EncParams) (gs : List (TileKey × List PixelRef))
    (q : ℕ × Option ℚ) :
    q ∈ groupWrites fetch elevFn ep gs ↔
      ∃ g ∈ gs, ∃ d, fetch g.1.1 g.1.2.1 g.1.2.2 = some d ∧
        ∃ pr ∈ g.2, q = (pr.index, elevFn d ep pr.pixelX pr.pixelY) := by
  induction gs with
  | nil => simp [groupWrites]
  | cons g gs ih =>
      cases hf : fetch g.1.1 g.1.2.1 g.1.2.2 with
      | none =>
          simp only [groupWrites, hf, List.nil_append, ih]
          constructor
          · rintro ⟨g', hg', hrest⟩
            exact ⟨g', List.mem_cons_of_mem _ hg', hrest⟩
          · rintro ⟨g', hg'mem, d, hd, rest⟩
            rcases List.mem_cons.mp hg'mem with rfl | hg'
            · rw [hf] at hd
              cases hd
            · exact ⟨g', hg', d, hd, rest⟩
      | some d0 =>
          simp only [groupWrites, hf, List.mem_append, List.mem_map, ih]
          constructor
          · rintro (⟨pr, hpr, rfl⟩ | ⟨g', hg', rest⟩)
            · exact ⟨g, List.mem_cons_self _ _, d0, hf, pr, hpr, rfl⟩
            · exact ⟨g', List.mem_cons_of_mem _ hg', rest⟩
          · rintro ⟨g', hg'mem, d, hd, pr, hpr, rfl⟩
            rcases List.mem_cons.mp hg'mem with rfl | hg'
            · rw [hf] at hd
              obtain rfl : d0 = d := Option.some.inj hd
              exact Or.inl ⟨pr, hpr, rfl⟩
            · exact Or.inr ⟨g', hg', d, hd, pr, hpr, rfl⟩

theorem nodup_keys_buildGroups (info : SourceInfo) (proj : Proj)
    (pts : List EPoint) :
    ((buildGroups info proj pts).map Prod.fst).Nodup :=
  nodup_keys_groupPairs _ _ (by simp)

/-- Every pixel reference found in a group of the batch's group map belongs
to the point whose input index it carries: the group's key is that point's
key and the pixel data is that point's projection. -/
theorem group_entry_pixel (info : SourceInfo) (proj : Proj)
    (pts : List EPoint) (k : TileKey) (prs : List PixelRef)
    (hg : (k, prs) ∈ buildGroups info proj pts) (pr : PixelRef)
    (hpr : pr ∈ prs) (j : ℕ) (hj : j < pts.length) (hidx : pr.index = j) :
    k = keyOf info proj (pts.get ⟨j, hj⟩) ∧
      pr = pixelRefOf info proj j (pts.get ⟨j, hj⟩) := by
  have hlook : lookupGrp k (buildGroups info proj pts) = prs :=
    lookupGrp_eq_of_mem _ _ _ (nodup_keys_buildGroups info proj pts) hg
  have hsel : pr ∈ selectVals k (taggedPixels info proj 0 pts) := by
    have : lookupGrp k (buildGroups info proj pts) =
        selectVals k (taggedPixels info proj 0 pts) := by
      show lookupGrp k (groupPairs [] (taggedPixels info proj 0 pts)) = _
      rw [lookupGrp_groupPairs]
      rfl
    rw [← hlook, this] at hpr
    exact hpr
  have htag : (k, pr) ∈ taggedPixels info proj 0 pts :=
    (mem_selectVals _ _ _).mp hsel
  obtain ⟨j', hj', heq⟩ := (mem_taggedPixels info proj 0 pts _).mp htag
  have hk : k = keyOf info proj (pts.get ⟨j', hj'⟩) := congrArg Prod.fst heq
  have hp : pr = pixelRefOf info proj (0 + j') (pts.get ⟨j', hj'⟩) :=
    congrArg Prod.snd heq
  have hj'' : j' = j := by
    have : pr.index = 0 + j' := by
      rw [hp]
      rfl
    rw [hidx] at this
    omega
  subst hj''
  rw [Nat.zero_add] at hp
  exact ⟨hk, hp⟩

/-- Conversely, the point at index j contributes its pixel reference to the
group keyed by its own tile key. -/
theorem point_in_own_group (info : SourceInfo) (proj : Proj)
    (pts : List EPoint) (j : ℕ) (hj : j < pts.length) :
    ∃ prs, (keyOf info proj (pts.get ⟨j, hj⟩), prs) ∈ buildGroups info proj pts ∧
      pixelRefOf info proj j (pts.get ⟨j, hj⟩) ∈ prs := by
  have htag : (keyOf info proj (pts.get ⟨j, hj⟩),
      pixelRefOf info proj j (pts.get ⟨j, hj⟩)) ∈
        taggedPixels info proj 0 pts := by
    rw [mem_taggedPixels]
    exact ⟨j, hj, by rw [Nat.zero_add]⟩
  have hkey : keyOf info proj (pts.get ⟨j, hj⟩) ∈
      (buildGroups info proj pts).map Prod.fst := by
    show _ ∈ (groupPairs [] (taggedPixels info proj 0 pts)).map Prod.fst
    rw [mem_keys_groupPairs]
    exact Or.inr ⟨_, htag, rfl⟩
  obtain ⟨g, hg, hfst⟩ := List.mem_map.mp hkey
  refine ⟨g.2, ?_, ?_⟩
  · have : g = (keyOf info proj (pts.get ⟨j, hj⟩), g.2) := by
      rw [← hfst]
    rw [← this]
    exact hg
  · have hlook : lookupGrp (keyOf info proj (pts.get ⟨j, hj⟩))
        (buildGroups info proj pts) = g.2 := by
      apply lookupGrp_eq_of_mem _ _ _ (nodup_keys_buildGroups info proj pts)
      have : g = (keyOf info proj (pts.get ⟨j, hj⟩), g.2) := by
        rw [← hfst]
      rw [← this]
      exact hg
    rw [← hlook]
    have : lookupGrp (keyOf info proj (pts.get ⟨j, hj⟩))
        (buildGroups info proj pts) =
        selectVals (keyOf info proj (pts.get ⟨j, hj⟩))
          (taggedPixels info proj 0 pts) := by
      show lookupGrp _ (groupPairs [] (taggedPixels info proj 0 pts)) = _
      rw [lookupGrp_groupPairs]
      rfl
    rw [this, mem_selectVals]
    exact htag

/-- Rewriting of the per-point semantics through the point's group key and
pixel reference (all definitional). -/
theorem pointElev_by_key {D : Type} (info : SourceInfo) (proj : Proj)
    (fetch : Fetch D) (elevFn : ElevFn D) (p : EPoint) (m : ℕ) :
    pointElev info proj fetch elevFn p =
      match fetch (keyOf info proj p).1 (keyOf info proj p).2.1
          (keyOf info proj p).2.2 with
      | none => none
      | some d => elevFn d ⟨info.encoding, info.format, info.tileSize⟩
          (pixelRefOf info proj m p).pixelX
          (pixelRefOf info proj m p).pixelY := rfl

/-- Master lemma: processing any group list having the same entries as the
batch's group map (in particular, in any order) leaves, at every input
index j, exactly the per-point elevation of point j. -/
theorem processGroups_getElem {D : Type} (info : SourceInfo) (proj : Proj)
    (fetch : Fetch D) (elevFn : ElevFn D) (pts : List EPoint)
    (gs' : List (TileKey × List PixelRef))
    (hmem : ∀ e, e ∈ gs' ↔ e ∈ buildGroups info proj pts)
    (j : ℕ) (hj : j < pts.length) :
    (processGroups fetch elevFn ⟨info.encoding, info.format, info.tileSize⟩
        gs' (List.replicate pts.length none))[j]? =
      some (pointElev info proj fetch elevFn (pts.get ⟨j, hj⟩)) := by
  set p := pts.get ⟨j, hj⟩ with hp
  set ep : EncParams := ⟨info.encoding, info.format, info.tileSize⟩ with hep
  rw [processGroups_eq_applyWrites]
  have hwrite : ∀ q ∈ groupWrites fetch elevFn ep gs', q.1 = j →
      ∃ d, fetch (keyOf info proj p).1 (keyOf info proj p).2.1
          (keyOf info proj p).2.2 = some d ∧
        q.2 = elevFn d ep (pixelRefOf info proj j p).pixelX
          (pixelRefOf info proj j p).pixelY := by
    intro q hq hqj
    obtain ⟨g, hg, d, hd, pr, hpr, rfl⟩ := (mem_groupWrites _ _ _ _ _).mp hq
    have hidx : pr.index = j := hqj
    obtain ⟨hk, hpr'⟩ := group_entry_pixel info proj pts g.1 g.2
      ((hmem g).mp hg) pr hpr j hj hidx
    refine ⟨d, ?_, ?_⟩
    · rw [← hk]
      exact hd
    · rw [hpr']
  cases hf : fetch (keyOf info proj p).1 (keyOf info proj p).2.1
      (keyOf info proj p).2.2 with
  | none =>
      have hnone : ∀ q ∈ groupWrites fetch elevFn ep gs', q.1 ≠ j := by
        intro q hq hqj
        obtain ⟨d, hd, _⟩ := hwrite q hq hqj
        rw [hf] at hd
        cases hd
      rw [applyWrites_not_written _ _ _ hnone]
      rw [List.getElem?_replicate]
      simp only [if_pos hj]
      rw [pointElev_by_key info proj fetch elevFn p j, hf]
  | some d =>
      obtain ⟨prs, hgrp, hprmem⟩ := point_in_own_group info proj pts j hj
      have hex : ∃ q ∈ groupWrites fetch elevFn ep gs', q.1 = j := by
        refine ⟨((pixelRefOf info proj j p).index,
            elevFn d ep (pixelRefOf info proj j p).pixelX
              (pixelRefOf info proj j p).pixelY), ?_, rfl⟩
        rw [mem_groupWrites]
        exact ⟨(keyOf info proj p, prs), (hmem _).mpr hgrp, d, hf,
          pixelRefOf info proj j p, hprmem, rfl⟩
      have hall : ∀ q ∈ groupWrites fetch elevFn ep gs', q.1 = j →
          q.2 = elevFn d ep (pixelRefOf info proj j p).pixelX
            (pixelRefOf info proj j p).pixelY := by
        intro q hq hqj
        obtain ⟨d', hd', hq2⟩ := hwrite q hq hqj
        rw [hf] at hd'
        obtain rfl : d = d' := Option.some.inj hd'
        exact hq2
      rw [applyWrites_written _ _ j _ hall hex
        (by rw [List.length_replicate]; exact hj)]
      rw [pointElev_by_key info proj fetch elevFn p j, hf]

theorem length_getBatchElevations {D : Type} (info : SourceInfo)
    (proj : Proj) (fetch : Fetch D) (elevFn : ElevFn D) (pts : List EPoint) :
    (getBatchElevations info proj fetch elevFn pts).1.length = pts.length := by
  show (processGroups fetch elevFn ⟨info.encoding, info.format, info.tileSize⟩
      (buildGroups info proj pts) (List.replicate pts.length none)).length = _
  rw [processGroups_eq_applyWrites, length_applyWrites, List.length_replicate]

/-- The batch result array is exactly the input points mapped through the
per-point semantics. -/
theorem getBatchElevations_eq_map {D : Type} (info : SourceInfo)
    (proj : Proj) (fetch : Fetch D) (elevFn : ElevFn D) (pts : List EPoint) :
    (getBatchElevations info proj fetch elevFn pts).1 =
      pts.map (pointElev info proj fetch elevFn) := by
  apply List.ext_getElem?
  intro n
  by_cases hn : n < pts.length
  · have h2 : (getBatchElevations info proj fetch elevFn pts).1 =
        processGroups fetch elevFn ⟨info.encoding, info.format, info.tileSize⟩
          (buildGroups info proj pts) (List.replicate pts.length none) := rfl
    rw [h2, processGroups_getElem info proj fetch elevFn pts
      (buildGroups info proj pts) (fun e => Iff.rfl) n hn,
      List.getElem?_map, List.getElem?_eq_getElem hn]
    rfl
  · rw [List.getElem?_eq_none, List.getElem?_eq_none]
    · rw [List.length_map]
      omega
    · rw [length_getBatchElevations]
      omega

/-- Processing the groups in any other order (any permutation of the group
map) produces the same result array. -/
theorem processGroups_perm_eq_map {D : Type} (info : SourceInfo)
    (proj : Proj) (fetch : Fetch D) (elevFn : ElevFn D) (pts : List EPoint)
    (gs' : List (TileKey × List PixelRef))
    (hperm : gs'.Perm (buildGroups info proj pts)) :
    processGroups fetch elevFn ⟨info.encoding, info.format, info.tileSize⟩
        gs' (List.replicate pts.length none) =
      pts.map (pointElev info proj fetch elevFn) := by
  apply List.ext_getElem?
  intro n
  by_cases hn : n < pts.length
  · rw [processGroups_getElem info proj fetch elevFn pts gs'
      (fun e => hperm.mem_iff) n hn,
      List.getElem?_map, List.getElem?_eq_getElem hn]
    rfl
  · rw [List.getElem?_eq_none, List.getElem?_eq_none]
    · rw [List.length_map]
      omega
    · rw [processGroups_eq_applyWrites, length_applyWrites,
        List.length_replicate]
      omega

/-- The fetch log of a batch is the group-map key list. -/
theorem fetchLog_eq (info : SourceInfo) (proj : Proj) {D : Type}
    (fetch : Fetch D) (elevFn : ElevFn D) (pts : List EPoint) :
    (getBatchElevations info proj fetch elevFn pts).2 =
      (buildGroups info proj pts).map Prod.fst := rfl

theorem mem_fetchLog {D : Type} (info : SourceInfo) (proj : Proj)
    (fetch : Fetch D) (elevFn : ElevFn D) (pts : List EPoint) (k : TileKey) :
    k ∈ (getBatchElevations info proj fetch elevFn pts).2 ↔
      ∃ p ∈ pts, keyOf info proj p = k := by
  rw [fetchLog_eq]
  show k ∈ (groupPairs [] (taggedPixels info proj 0 pts)).map Prod.fst ↔ _
  rw [mem_keys_groupPairs]
  constructor
  · rintro (h | ⟨q, hq, hk⟩)
    · simp at h
    · obtain ⟨j, hj, rfl⟩ := (mem_taggedPixels info proj 0 pts q).mp hq
      exact ⟨pts.get ⟨j, hj⟩, List.get_mem _ _ _, hk⟩
  · rintro ⟨p, hp, hk⟩
    obtain ⟨⟨j, hj⟩, rfl⟩ := List.mem_iff_get.mp hp
    refine Or.inr ⟨(keyOf info proj (pts.get ⟨j, hj⟩),
      pixelRefOf info proj j (pts.get ⟨j, hj⟩)), ?_, hk⟩
    rw [mem_taggedPixels]
    exact ⟨j, hj, by rw [Nat.zero_add]⟩

theorem nodup_fetchLog {D : Type} (info : SourceInfo) (proj : Proj)
    (fetch : Fetch D) (elevFn : ElevFn D) (pts : List EPoint) :
    (getBatchElevations info proj fetch elevFn pts).2.Nodup := by
  rw [fetchLog_eq]
  exact nodup_keys_buildGroups info proj pts

/-- Occurrence count of a tile key in the fetch log (instance-free form of
List.count). -/
def countKey (k : TileKey) : List TileKey → ℕ
  | [] => 0
  | k' :: ks => (if k' = k then 1 else 0) + countKey k ks

theorem countKey_eq_zero_of_not_mem (k : TileKey) (l : List TileKey)
    (h : k ∉ l) : countKey k l = 0 := by
  induction l with
  | nil => rfl
  | cons k' ks ih =>
      have h1 : ¬ k' = k := fun hc => h (by rw [hc]; exact List.mem_cons_self _ _)
      have h2 : k ∉ ks := fun hc => h (List.mem_cons_of_mem _ hc)
      simp [countKey, h1, ih h2]

theorem countKey_eq_one (k : TileKey) (l : List TileKey)
    (hn : l.Nodup) (hm : k ∈ l) : countKey k l = 1 := by
  induction l with
  | nil => cases hm
  | cons k' ks ih =>
      rw [List.nodup_cons] at hn
      rcases List.mem_cons.mp hm with rfl | hmem
      · simp [countKey, countKey_eq_zero_of_not_mem _ _ hn.1]
      · have h1 : ¬ k' = k := by
          intro hc
          rw [hc] at hn
          exact hn.1 hmem
        simp [countKey, h1, ih hn.2 hmem]

/-- Concrete instances used by the witnesses: a validated terrain source,
a projection sending (lon, lat) to tile (⌊lon⌋-like integer parts), a fetch
that only has the tile (2, 1, 1), and a decode returning the tile datum. -/
def tj0 : TileJSON :=
  ⟨some "png", some "mapbox", some 256, some 0, some 2⟩

def item0 : RepoItem := ⟨true, some tj0, some "mbtiles", true⟩

def repo0 : Repo := fun id => if id = "terrain" then some item0 else none

def info0 : SourceInfo := ⟨"mbtiles", "mapbox", "png", 256, 0, 2⟩

def proj0 : Proj := fun lon lat _zoom _ts => ⟨lon.num, lat.num, lon, lat⟩

def fetch0 : Fetch ℕ := fun z x y =>
  if z = 2 ∧ x = 1 ∧ y = 1 then some 7 else none

def elev0 : ElevFn ℕ := fun d _ _px _py => some (d : ℚ)

def pts0 : List EPoint := [⟨1, 1, 5⟩, ⟨0, 0, 2⟩, ⟨1, 1, 9⟩]

/-- C1: For every batch elevation query against a validated terrain source
with a non-empty array of valid points, the result array has exactly one
entry per input point, results[i] is the elevation computed for points[i]
(the per-point semantics pointElev), and processing the per-tile groups in
any other order (any permutation of the group map) yields that same result
array. -/
theorem c1_batch_results_match_points {D : Type} (repo : Repo) (id : String)
    (info : SourceInfo) (proj : Proj) (fetch : Fetch D) (elevFn : ElevFn D)
    (pts : List EPoint) (gs' : List (TileKey × List PixelRef))
    (hval : validateElevationSource repo id = .ok info) (hne : pts ≠ [])
    (hperm : gs'.Perm (buildGroups info proj pts)) :
    (getBatchElevations info proj fetch elevFn pts).1.length = pts.length ∧
    (∀ i (hi : i < pts.length),
        (getBatchElevations info proj fetch elevFn pts).1[i]? =
          some (pointElev info proj fetch elevFn (pts.get ⟨i, hi⟩))) ∧
    processGroups fetch elevFn ⟨info.encoding, info.format, info.tileSize⟩
        gs' (List.replicate pts.length none) =
      (getBatchElevations info proj fetch elevFn pts).1 := by
  refine ⟨length_getBatchElevations info proj fetch elevFn pts, ?_, ?_⟩
  · intro i hi
    rw [getBatchElevations_eq_map, List.getElem?_map,
      List.getElem?_eq_getElem hi]
    rfl
  · rw [processGroups_perm_eq_map info proj fetch elevFn pts gs' hperm,
      getBatchElevations_eq_map]

/-- Witness for C1 at a concrete three-point batch over a concrete source. -/
theorem c1_witness :
    validateElevationSource repo0 "terrain" = .ok info0 ∧ pts0 ≠ [] ∧
    ((getBatchElevations info0 proj0 fetch0 elev0 pts0).1.length =
        pts0.length ∧
     (∀ i (hi : i < pts0.length),
        (getBatchElevations info0 proj0 fetch0 elev0 pts0).1[i]? =
          some (pointElev info0 proj0 fetch0 elev0 (pts0.get ⟨i, hi⟩))) ∧
     processGroups fetch0 elev0 ⟨info0.encoding, info0.format, info0.tileSize⟩
        (buildGroups info0 proj0 pts0) (List.replicate pts0.length none) =
      (getBatchElevations info0 proj0 fetch0 elev0 pts0).1) :=
  ⟨rfl, by decide,
   c1_batch_results_match_points repo0 "terrain" info0 proj0 fetch0 elev0
     pts0 (buildGroups info0 proj0 pts0) rfl (by decide)
     (List.Perm.refl _)⟩

/-- C3: within one batch, points sharing a (clamped zoom, tileX, tileY) key
share exactly one fetch (the fetch log is duplicate-free, contains exactly
the point keys, and each point's key occurs exactly once); when the fetch
of key k is Absent, every point of that group gets a null result and every
point outside the group gets its own per-point result, unaffected. -/
theorem c3_single_fetch_and_absent_scope {D : Type} (info : SourceInfo)
    (proj : Proj) (fetch : Fetch D) (elevFn : ElevFn D) (pts : List EPoint)
    (k : TileKey) (hk : fetch k.1 k.2.1 k.2.2 = none) :
    (getBatchElevations info proj fetch elevFn pts).2.Nodup ∧
    (∀ k', k' ∈ (getBatchElevations info proj fetch elevFn pts).2 ↔
        ∃ p ∈ pts, keyOf info proj p = k') ∧
    (∀ p ∈ pts, countKey (keyOf info proj p)
        (getBatchElevations info proj fetch elevFn pts).2 = 1) ∧
    (∀ i (hi : i < pts.length), keyOf info proj (pts.get ⟨i, hi⟩) = k →
        (getBatchElevations info proj fetch elevFn pts).1[i]? = some none) ∧
    (∀ i (hi : i < pts.length), keyOf info proj (pts.get ⟨i, hi⟩) ≠ k →
        (getBatchElevations info proj fetch elevFn pts).1[i]? =
          some (pointElev info proj fetch elevFn (pts.get ⟨i, hi⟩))) := by
  refine ⟨nodup_fetchLog info proj fetch elevFn pts,
    fun k' => mem_fetchLog info proj fetch elevFn pts k', ?_, ?_, ?_⟩
  · intro p hp
    exact countKey_eq_one _ _ (nodup_fetchLog info proj fetch elevFn pts)
      ((mem_fetchLog info proj fetch elevFn pts _).mpr ⟨p, hp, rfl⟩)
  · intro i hi hkey
    have hpe : pointElev info proj fetch elevFn (pts.get ⟨i, hi⟩) = none := by
      rw [pointElev_by_key info proj fetch elevFn _ i, hkey, hk]
    rw [getBatchElevations_eq_map, List.getElem?_map,
      List.getElem?_eq_getElem hi]
    show some (pointElev info proj fetch elevFn (pts.get ⟨i, hi⟩)) = some none
    rw [hpe]
  · intro i hi _
    rw [getBatchElevations_eq_map, List.getElem?_map,
      List.getElem?_eq_getElem hi]
    rfl

/-- Witness for C3: in the concrete batch, the tile (2, 0, 0) is absent;
only the middle point lies in that group. -/
theorem c3_witness :
    fetch0 ((2 : ℚ), (0 : ℤ), (0 : ℤ)).1 ((2 : ℚ), (0 : ℤ), (0 : ℤ)).2.1
        ((2 : ℚ), (0 : ℤ), (0 : ℤ)).2.2 = none ∧
    ((getBatchElevations info0 proj0 fetch0 elev0 pts0).2.Nodup ∧
     (∀ k', k' ∈ (getBatchElevations info0 proj0 fetch0 elev0 pts0).2 ↔
        ∃ p ∈ pts0, keyOf info0 proj0 p = k') ∧
     (∀ p ∈ pts0, countKey (keyOf info0 proj0 p)
        (getBatchElevations info0 proj0 fetch0 elev0 pts0).2 = 1) ∧
     (∀ i (hi : i < pts0.length),
        keyOf info0 proj0 (pts0.get ⟨i, hi⟩) = ((2 : ℚ), (0 : ℤ), (0 : ℤ)) →
        (getBatchElevations info0 proj0 fetch0 elev0 pts0).1[i]? =
          some none) ∧
     (∀ i (hi : i < pts0.length),
        keyOf info0 proj0 (pts0.get ⟨i, hi⟩) ≠ ((2 : ℚ), (0 : ℤ), (0 : ℤ)) →
        (getBatchElevations info0 proj0 fetch0 elev0 pts0).1[i]? =
          some (pointElev info0 proj0 fetch0 elev0 (pts0.get ⟨i, hi⟩)))) :=
  ⟨by decide,
   c3_single_fetch_and_absent_scope info0 proj0 fetch0 elev0 pts0
     ((2 : ℚ), (0 : ℤ), (0 : ℤ)) (by decide)⟩

/-- Outcome observed from the underlying tile container for one lookup, as
consumed by fetchTileData (utils.js lines 354-371):
for pmtiles, getPMtilesTile resolves with data or without
(`!tileinfo?.data`); for mbtiles, source.getTile calls back either with an
error — whose message may or may not be a missing-tile "does not exist"
message (`isMissing`) — or with data and headers. -/
inductive ContainerOutcome (D H : Type) where
  | pmNoData : ContainerOutcome D H
  | pmData (data : D) (header : H) : ContainerOutcome D H
  | mbError (isMissing : Bool) : ContainerOutcome D H
  | mbData (data : D) (headers : H) : ContainerOutcome D H
deriving DecidableEq, Repr

/-- Result of the unified fetcher: the promise resolves with null (Absent)
or with a payload object. -/
inductive FetchValue (D H : Type) where
  | absent : FetchValue D H
  | payload (data : D) (headers : H) : FetchValue D H
deriving DecidableEq, Repr

/-- fetchTileData from utils.js lines 354-371.  The pmtiles branch resolves
null when `!tileinfo?.data`; the mbtiles branch resolves null on every
callback error (`if (err) return resolve(null)`), without inspecting the
error message. -/
def fetchTileData {D H : Type} : ContainerOutcome D H → FetchValue D H
  | .pmNoData => .absent
  | .pmData d h => .payload d h
  | .mbError _ => .absent
  | .mbData d h => .payload d h

/-- Counterexample to C2: a genuine mbtiles I/O failure (an error whose
message is not a missing-tile message, isMissing = false) is resolved to
the Absent result by fetchTileData rather than propagating as an error
distinct from Absent. -/
theorem c2_counterexample :
    fetchTileData (D := ℕ) (H := ℕ) (ContainerOutcome.mbError false) =
      FetchValue.absent ∧
    ¬ (fetchTileData (D := ℕ) (H := ℕ) (ContainerOutcome.mbError false) ≠
        FetchValue.absent) :=
  ⟨rfl, fun h => h rfl⟩

/-- C2 amended: a "tile does not exist in container" condition maps to
Absent, and for mbtiles sources every container error — including a genuine
I/O failure — is likewise resolved to Absent; successful lookups yield the
payload.  No mbtiles error propagates distinct from Absent. -/
theorem c2_fetchTileData_absent_mapping {D H : Type} :
    (fetchTileData (D := D) (H := H) ContainerOutcome.pmNoData =
        FetchValue.absent) ∧
    (∀ b, fetchTileData (D := D) (H := H) (ContainerOutcome.mbError b) =
        FetchValue.absent) ∧
    (∀ (d : D) (h : H),
        fetchTileData (ContainerOutcome.pmData d h) = FetchValue.payload d h) ∧
    (∀ (d : D) (h : H),
        fetchTileData (ContainerOutcome.mbData d h) = FetchValue.payload d h) :=
  ⟨rfl, fun _ => rfl, fun _ _ => rfl, fun _ _ => rfl⟩

/-- Inversion: a successful validation reports as tileSize the declared
tileJSON.tileSize if it is present and nonzero, and 512 otherwise
(`tileSize: tileJSON.tileSize || 512`). -/
theorem validateElevationSource_ok_tileSize (repo : Repo) (id : String)
    (item : RepoItem) (tj : TileJSON) (info : SourceInfo)
    (hitem : repo id = some item) (htj : item.tileJSON = some tj)
    (hval : validateElevationSource repo id = .ok info) :
    info.tileSize = (match tj.tileSize with
                     | none => 512
                     | some t => if t = 0 then 512 else t) := by
  unfold validateElevationSource at hval
  rw [hitem] at hval
  simp only [htj] at hval
  repeat' split at hval
  all_goals simp_all
  all_goals rw [← hval]

/-- The concrete source for the C4 counterexample: a valid terrain source
that declares no tileSize. -/
def tjC4 : TileJSON := ⟨some "png", some "mapbox", none, some 0, some 2⟩

def repoC4 : Repo := fun id =>
  if id = "dem" then some ⟨true, some tjC4, some "mbtiles", true⟩ else none

/-- Counterexample to C4: for a validated terrain source that declares no
tile-side pixel size, the engine's tileSize is 512, not 256. -/
theorem c4_counterexample :
    ∃ info, validateElevationSource repoC4 "dem" = .ok info ∧
      info.tileSize = 512 ∧ info.tileSize ≠ 256 :=
  ⟨⟨"mbtiles", "mapbox", "png", 512, 0, 2⟩, rfl, rfl, by decide⟩

/-- C4 amended: the engine projects every query point with the source's
declared tile-side pixel size, and when the source declares none (or the
falsy 0) the default tile-side pixel size is 512. -/
theorem c4_projection_uses_tileSize_default_512 {D : Type} (repo : Repo)
    (id : String) (item : RepoItem) (tj : TileJSON) (info : SourceInfo)
    (proj : Proj) (fetch : Fetch D) (elevFn : ElevFn D) (pts : List EPoint)
    (hitem : repo id = some item) (htj : item.tileJSON = some tj)
    (hval : validateElevationSource repo id = .ok info) :
    info.tileSize = (match tj.tileSize with
                     | none => 512
                     | some t => if t = 0 then 512 else t) ∧
    (getBatchElevations info proj fetch elevFn pts).1 =
      pts.map (fun p =>
        let zoom := clampZoom info.minzoom info.maxzoom p.z
        let tp := proj p.lon p.lat zoom info.tileSize
        match fetch zoom tp.tileX tp.tileY with
        | none => none
        | some d => elevFn d ⟨info.encoding, info.format, info.tileSize⟩
            tp.pixelX tp.pixelY) :=
  ⟨validateElevationSource_ok_tileSize repo id item tj info hitem htj hval,
   getBatchElevations_eq_map info proj fetch elevFn pts⟩

/-- Witness for the amended C4 at the concrete source (declared tileSize
256) and the concrete three-point batch. -/
theorem c4_witness :
    repo0 "terrain" = some item0 ∧ item0.tileJSON = some tj0 ∧
    validateElevationSource repo0 "terrain" = .ok info0 ∧
    (info0.tileSize = (match tj0.tileSize with
                       | none => 512
                       | some t => if t = 0 then 512 else t) ∧
     (getBatchElevations info0 proj0 fetch0 elev0 pts0).1 =
       pts0.map (fun p =>
         let zoom := clampZoom info0.minzoom info0.maxzoom p.z
         let tp := proj0 p.lon p.lat zoom info0.tileSize
         match fetch0 zoom tp.tileX tp.tileY with
         | none => none
         | some d => elev0 d ⟨info0.encoding, info0.format, info0.tileSize⟩
             tp.pixelX tp.pixelY)) :=
  ⟨rfl, rfl, rfl,
   c4_projection_uses_tileSize_default_512 repo0 "terrain" item0 tj0 info0
     proj0 fetch0 elev0 pts0 rfl rfl rfl⟩

/-- JavaScript `a < b` where b may be undefined: false when undefined. -/
def qltOpt (a : ℚ) : Option ℚ → Bool
  | none => false
  | some b => decide (a < b)

/-- JavaScript `a > b` where b may be undefined: false when undefined. -/
def qgtOpt (a : ℚ) : Option ℚ → Bool
  | none => false
  | some b => decide (a > b)

/-- Math.pow(2, z) for an integer z (exact for JavaScript doubles on the
integer and dyadic values involved), written as an explicit rational so
that it evaluates by kernel reduction. -/
def pow2z : ℤ → ℚ
  | Int.ofNat n => ⟨Int.ofNat (2 ^ n), 1, one_ne_zero, Nat.coprime_one_right _⟩
  | Int.negSucc n => ⟨1, 2 ^ (n + 1),
      (Nat.pos_pow_of_pos _ (by norm_num)).ne', Nat.coprime_one_left _⟩

theorem pow2z_eq (z : ℤ) : pow2z z = (2 : ℚ) ^ z := by
  cases z with
  | ofNat n =>
      show (⟨Int.ofNat (2 ^ n), 1, _, _⟩ : ℚ) = _
      rw [Rat.mk'_eq_divInt, Rat.divInt_eq_div,
        show Int.ofNat (2 ^ n) = ((2 ^ n : ℕ) : ℤ) from rfl,
        show (Int.ofNat n) = (n : ℤ) from rfl]
      push_cast
      rw [div_one, zpow_natCast]
  | negSucc n =>
      show (⟨1, 2 ^ (n + 1), _, _⟩ : ℚ) = _
      rw [Rat.mk'_eq_divInt, zpow_negSucc]
      rw [Rat.divInt_eq_div]
      push_cast
      rw [one_div]

/-- The bounds condition of the tile handler (part_000 lines 96-103):
`z < minzoom || x < 0 || y < 0 || z > maxzoom || x >= 2**z || y >= 2**z`. -/
def tileOutOfBounds (tj : TileJSON) (z x y : ℤ) : Bool :=
  qltOpt (z : ℚ) tj.minzoom || decide (x < 0) || decide (y < 0) ||
  qgtOpt (z : ℚ) tj.maxzoom || decide ((x : ℚ) ≥ pow2z z) ||
  decide ((y : ℚ) ≥ pow2z z)

/-- Response of the tile-data GET handler (part_000 lines 62-171).  The
transcoding tail for a present tile (gunzip, decoration, pbf/geojson
conversion, gzip) is outside the scope of the bounds/missing-tile claims
and is represented by returning the fetched payload. -/
inductive TileResp (D : Type) where
  | notFound : TileResp D
  | invalidTile : TileResp D
  | invalidFormat : TileResp D
  | outOfBounds : TileResp D
  | missing (status : ℕ) : TileResp D
  | serverFailure : TileResp D
  | ok (data : D) : TileResp D
deriving DecidableEq, Repr

/-- The tile-data GET handler of part_000 lines 62-118: resolve the source,
read tileJSON.format (a missing tileJSON would throw), check the parsed
coordinates, the requested format (with the pbf alias), the bounds, then
fetch; an absent tile answers 404 when the source is sparse and 204
otherwise. -/
def dataTileHandler {D : Type} (repo : Repo) (fetch : ℤ → ℤ → ℤ → Option D)
    (pbfAlias : String) (id : String) (pz px py : Option ℤ) (fmt : String) :
    TileResp D :=
  match repo id with
  | none => .notFound
  | some item =>
    match item.tileJSON with
    | none => .serverFailure
    | some tj =>
      match pz, px, py with
      | some z, some x, some y =>
        let format := if fmt = pbfAlias then "pbf" else fmt
        if ¬ (some format = tj.format ∨
              (format = "geojson" ∧ tj.format = some "pbf")) then
          .invalidFormat
        else if tileOutOfBounds tj z x y then .outOfBounds
        else
          match fetch z x y with
          | none => .missing (if item.sparse then 404 else 204)
          | some d => .ok d
      | _, _, _ => .invalidTile

/-- The sparse policy of serve_data.add (part_000 lines 590-595): per-source
override, else global option, else the format-based default
`!(format === 'pbf')`. -/
def computeSparse (paramsSparse optionsSparse : Option Bool)
    (format : Option String) : Bool :=
  paramsSparse.getD (optionsSparse.getD (if format = some "pbf" then false else true))

/-- C5: with source resolved, format valid and coordinates in bounds, an
absent tile yields status 404 (client-retryable not-found, enabling
overzoom) exactly when the source is sparse (ReturnNotFound) and the
non-retryable empty status 204 when it is not (ReturnEmpty); absent a
per-source or global sparse setting, pbf sources default to the empty
behaviour and all other (raster) formats to the not-found behaviour. -/
theorem c5_missing_tile_policy {D : Type} (repo : Repo)
    (fetch : ℤ → ℤ → ℤ → Option D) (pbfAlias id : String)
    (item : RepoItem) (tj : TileJSON) (z x y : ℤ) (fmt : String)
    (hitem : repo id = some item) (htj : item.tileJSON = some tj)
    (hfmt : some (if fmt = pbfAlias then "pbf" else fmt) = tj.format ∨
      ((if fmt = pbfAlias then "pbf" else fmt) = "geojson" ∧
        tj.format = some "pbf"))
    (hbounds : tileOutOfBounds tj z x y = false)
    (habsent : fetch z x y = none) :
    dataTileHandler repo fetch pbfAlias id (some z) (some x) (some y) fmt =
      .missing (if item.sparse then 404 else 204) ∧
    (item.sparse = true →
      dataTileHandler repo fetch pbfAlias id (some z) (some x) (some y) fmt =
        .missing 404) ∧
    (item.sparse = false →
      dataTileHandler repo fetch pbfAlias id (some z) (some x) (some y) fmt =
        .missing 204) ∧
    computeSparse none none (some "pbf") = false ∧
    (∀ f, f ≠ some "pbf" → computeSparse none none f = true) ∧
    (∀ b o f, computeSparse (some b) o f = b) ∧
    (∀ g f, computeSparse none (some g) f = g) := by
  have hmain : dataTileHandler repo fetch pbfAlias id (some z) (some x)
      (some y) fmt = .missing (if item.sparse then 404 else 204) := by
    unfold dataTileHandler
    rw [hitem]
    simp only [htj]
    rw [if_neg (not_not_intro hfmt), if_neg (by rw [hbounds]; exact Bool.false_ne_true)]
    rw [habsent]
  refine ⟨hmain, ?_, ?_, rfl, ?_, fun b o f => rfl, fun g f => rfl⟩
  · intro hs
    rw [hmain, hs, if_pos rfl]
  · intro hs
    rw [hmain, hs]
    rfl
  · intro f hf
    unfold computeSparse
    simp [hf]

/-- Witness for C5 at a concrete sparse raster source with an absent tile. -/
theorem c5_witness :
    repo0 "terrain" = some item0 ∧ item0.tileJSON = some tj0 ∧
    (some (if "png" = "tilePbf" then "pbf" else "png") = tj0.format ∨
      ((if "png" = "tilePbf" then "pbf" else "png") = "geojson" ∧
        tj0.format = some "pbf")) ∧
    tileOutOfBounds tj0 1 0 0 = false ∧
    (fun (_ : ℤ) (_ : ℤ) (_ : ℤ) => (none : Option ℕ)) 1 0 0 = none ∧
    (dataTileHandler repo0 (fun _ _ _ => (none : Option ℕ)) "tilePbf"
        "terrain" (some 1) (some 0) (some 0) "png" =
      .missing (if item0.sparse then 404 else 204) ∧
     (item0.sparse = true →
       dataTileHandler repo0 (fun _ _ _ => (none : Option ℕ)) "tilePbf"
          "terrain" (some 1) (some 0) (some 0) "png" = .missing 404) ∧
     (item0.sparse = false →
       dataTileHandler repo0 (fun _ _ _ => (none : Option ℕ)) "tilePbf"
          "terrain" (some 1) (some 0) (some 0) "png" = .missing 204) ∧
     computeSparse none none (some "pbf") = false ∧
     (∀ f, f ≠ some "pbf" → computeSparse none none f = true) ∧
     (∀ b o f, computeSparse (some b) o f = b) ∧
     (∀ g f, computeSparse none (some g) f = g)) :=
  ⟨rfl, rfl, Or.inl rfl, by decide, rfl,
   c5_missing_tile_policy repo0 (fun _ _ _ => (none : Option ℕ)) "tilePbf"
     "terrain" item0 tj0 1 0 0 "png" rfl rfl (Or.inl rfl) (by decide) rfl⟩

/-- C6: a tile request whose source resolves, whose tileJSON declares zoom
bounds and whose format is valid is answered out of bounds exactly when
z < minZoom, z > maxZoom, x < 0, y < 0, x ≥ 2^z or y ≥ 2^z; in particular
x = 2^z or y = 2^z is rejected, while z = minZoom or z = maxZoom is
accepted when everything else is within range. -/
theorem c6_out_of_bounds_iff {D : Type} (repo : Repo)
    (fetch : ℤ → ℤ → ℤ → Option D) (pbfAlias id : String)
    (item : RepoItem) (tj : TileJSON) (mz Mz : ℚ) (z x y : ℤ) (fmt : String)
    (hitem : repo id = some item) (htj : item.tileJSON = some tj)
    (hfmt : some (if fmt = pbfAlias then "pbf" else fmt) = tj.format ∨
      ((if fmt = pbfAlias then "pbf" else fmt) = "geojson" ∧
        tj.format = some "pbf"))
    (hmz : tj.minzoom = some mz) (hMz : tj.maxzoom = some Mz) :
    (dataTileHandler repo fetch pbfAlias id (some z) (some x) (some y) fmt =
        .outOfBounds ↔
      ((z : ℚ) < mz ∨ (z : ℚ) > Mz ∨ x < 0 ∨ y < 0 ∨
        (x : ℚ) ≥ (2 : ℚ) ^ z ∨ (y : ℚ) ≥ (2 : ℚ) ^ z)) ∧
    ((x : ℚ) = (2 : ℚ) ^ z →
      dataTileHandler repo fetch pbfAlias id (some z) (some x) (some y) fmt =
        .outOfBounds) ∧
    ((y : ℚ) = (2 : ℚ) ^ z →
      dataTileHandler repo fetch pbfAlias id (some z) (some x) (some y) fmt =
        .outOfBounds) ∧
    ((z : ℚ) = mz → (z : ℚ) ≤ Mz → 0 ≤ x → 0 ≤ y → (x : ℚ) < (2 : ℚ) ^ z →
      (y : ℚ) < (2 : ℚ) ^ z →
      dataTileHandler repo fetch pbfAlias id (some z) (some x) (some y) fmt ≠
        .outOfBounds) ∧
    ((z : ℚ) = Mz → mz ≤ (z : ℚ) → 0 ≤ x → 0 ≤ y → (x : ℚ) < (2 : ℚ) ^ z →
      (y : ℚ) < (2 : ℚ) ^ z →
      dataTileHandler repo fetch pbfAlias id (some z) (some x) (some y) fmt ≠
        .outOfBounds) := by
  have hred : dataTileHandler repo fetch pbfAlias id (some z) (some x)
      (some y) fmt =
      if tileOutOfBounds tj z x y then .outOfBounds
      else (match fetch z x y with
            | none => TileResp.missing (if item.sparse then 404 else 204)
            | some d => TileResp.ok d) := by
    unfold dataTileHandler
    rw [hitem]
    simp only [htj]
    rw [if_neg (not_not_intro hfmt)]
  have hcond : tileOutOfBounds tj z x y = true ↔
      ((z : ℚ) < mz ∨ (z : ℚ) > Mz ∨ x < 0 ∨ y < 0 ∨
        (x : ℚ) ≥ (2 : ℚ) ^ z ∨ (y : ℚ) ≥ (2 : ℚ) ^ z) := by
    unfold tileOutOfBounds qltOpt qgtOpt
    rw [hmz, hMz, pow2z_eq]
    simp only [Bool.or_eq_true, decide_eq_true_eq]
    tauto
  have hiff : dataTileHandler repo fetch pbfAlias id (some z) (some x)
      (some y) fmt = .outOfBounds ↔ tileOutOfBounds tj z x y = true := by
    rw [hred]
    constructor
    · intro h
      by_contra hb
      rw [if_neg hb] at h
      cases hf : fetch z x y with
      | none =>
          rw [hf] at h
          exact TileResp.noConfusion h
      | some d =>
          rw [hf] at h
          exact TileResp.noConfusion h
    · intro h
      rw [if_pos h]
  have hmainIff := hiff.trans hcond
  refine ⟨hmainIff, ?_, ?_, ?_, ?_⟩
  · intro hx
    exact hmainIff.mpr (Or.inr (Or.inr (Or.inr (Or.inr (Or.inl
      (ge_of_eq hx))))))
  · intro hy
    exact hmainIff.mpr (Or.inr (Or.inr (Or.inr (Or.inr (Or.inr
      (ge_of_eq hy))))))
  · intro hz hzM hx hy hxb hyb hoob
    rcases hmainIff.mp hoob with h | h | h | h | h | h
    · linarith
    · linarith
    · omega
    · omega
    · linarith
    · linarith
  · intro hz hzm hx hy hxb hyb hoob
    rcases hmainIff.mp hoob with h | h | h | h | h | h
    · linarith
    · linarith
    · omega
    · omega
    · linarith
    · linarith

/-- Witness for C6: the concrete source accepts (z,x,y) = (2,3,3) and the
iff holds with z = 3 beyond maxzoom 2. -/
theorem c6_witness :
    repo0 "terrain" = some item0 ∧ item0.tileJSON = some tj0 ∧
    tj0.minzoom = some 0 ∧ tj0.maxzoom = some 2 ∧
    (dataTileHandler repo0 (fun _ _ _ => (none : Option ℕ)) "tilePbf"
        "terrain" (some 3) (some 0) (some 0) "png" = .outOfBounds ↔
      (((3 : ℤ) : ℚ) < 0 ∨ ((3 : ℤ) : ℚ) > 2 ∨ (0 : ℤ) < 0 ∨ (0 : ℤ) < 0 ∨
        (((0 : ℤ)) : ℚ) ≥ (2 : ℚ) ^ (3 : ℤ) ∨
        (((0 : ℤ)) : ℚ) ≥ (2 : ℚ) ^ (3 : ℤ))) := by
  refine ⟨rfl, rfl, rfl, rfl, ?_⟩
  exact (c6_out_of_bounds_iff repo0 (fun _ _ _ => (none : Option ℕ))
    "tilePbf" "terrain" item0 tj0 0 2 3 0 0 "png" rfl rfl (Or.inl rfl)
    rfl rfl).1

/-- Bounding box [west, south, east, north] returned by the external
SphericalMercator().bbox library call. -/
structure BBox where
  w : ℚ
  s : ℚ
  e : ℚ
  n : ℚ
deriving DecidableEq, Repr

/-- The external SphericalMercator().bbox(intX, intY, zoom) capability. -/
abbrev BBoxFn := ℤ → ℤ → ℤ → BBox

/-- Response of the elevation GET handler (part_000 lines 341-422). -/
inductive ElevResp where
  | errRes (status : ℕ) (msg : String) : ElevResp
  | noContent : ElevResp
  | okRes (lon lat : ℚ) (elevation : ℚ) (z : ℚ) (tileX tileY : ℤ)
      (pixelX pixelY : ℚ) : ElevResp
deriving DecidableEq, Repr

/-- Number.isInteger on a parsed rational. -/
def isIntQ (q : ℚ) : Bool := q.den == 1

/-- The strict tile-coordinate-mode bounds check of the elevation handler
(part_000 lines 367-374). -/
def elevOutOfBounds (info : SourceInfo) (z intX intY : ℤ) : Bool :=
  decide ((z : ℚ) < info.minzoom) || decide ((z : ℚ) > info.maxzoom) ||
  decide (intX < 0) || decide (intY < 0) ||
  decide ((intX : ℚ) ≥ pow2z z) || decide ((intY : ℚ) ≥ pow2z z)

/-- Tail of the elevation GET handler (part_000 lines 386-415): run the
single-point batch; a null result answers 204, otherwise the response
reports the elevation together with the clamped zoom and the projected
tile/pixel coordinates. -/
def finishElevation {D : Type} (info : SourceInfo) (proj : Proj)
    (fetch : Fetch D) (elevFn : ElevFn D) (lon lat : ℚ) (z : ℤ) : ElevResp :=
  let results := (getBatchElevations info proj fetch elevFn
    [⟨lon, lat, (z : ℚ)⟩]).1
  match results.head? with
  | none => .noContent
  | some none => .noContent
  | some (some e) =>
      let clampedZoom := min (max ((z : ℚ)) info.minzoom) info.maxzoom
      let tp := proj lon lat clampedZoom info.tileSize
      .okRes lon lat e clampedZoom tp.tileX tp.tileY tp.pixelX tp.pixelY

/-- The elevation GET handler (part_000 lines 341-422): validate the
source; integer x and y select tile-coordinate mode with strict bounds
checking and a bbox-midpoint representative coordinate; otherwise x, y are
taken directly as lon/lat (coordinate mode) with no bounds check. -/
def elevationGetHandler {D : Type} (repo : Repo) (proj : Proj)
    (fetch : Fetch D) (elevFn : ElevFn D) (bboxFn : BBoxFn) (id : String)
    (z : ℤ) (x y : ℚ) : ElevResp :=
  match validateElevationSource repo id with
  | .error e => .errRes e.1 e.2
  | .ok info =>
    if isIntQ x && isIntQ y then
      let intX := x.num
      let intY := y.num
      if elevOutOfBounds info z intX intY then .errRes 404 "Out of bounds"
      else
        let bbox := bboxFn intX intY z
        let lon := (bbox.w + bbox.e) / 2
        let lat := (bbox.s + bbox.n) / 2
        finishElevation info proj fetch elevFn lon lat z
    else
      finishElevation info proj fetch elevFn x y z

theorem finishElevation_ne_err {D : Type} (info : SourceInfo) (proj : Proj)
    (fetch : Fetch D) (elevFn : ElevFn D) (lon lat : ℚ) (z : ℤ) (s : ℕ)
    (m : String) :
    finishElevation info proj fetch elevFn lon lat z ≠ .errRes s m := by
  simp only [finishElevation]
  cases h : ((getBatchElevations info proj fetch elevFn
      [⟨lon, lat, (z : ℚ)⟩]).1).head? with
  | none =>
      intro hc
      exact ElevResp.noConfusion hc
  | some o =>
      cases o with
      | none =>
          intro hc
          exact ElevResp.noConfusion hc
      | some e =>
          intro hc
          exact ElevResp.noConfusion hc

theorem clampZoom_mem (minz maxz z : ℚ) (h : minz ≤ maxz) :
    minz ≤ clampZoom minz maxz z ∧ clampZoom minz maxz z ≤ maxz := by
  simp only [clampZoom]
  split_ifs <;> constructor <;> linarith

/-- C7: for a validated terrain source (minzoom ≤ maxzoom), a
coordinate-mode query (non-integer x or y) is never rejected: its zoom is
clamped into [minzoom, maxzoom] inside the batch engine and the query
proceeds; a tile-coordinate-mode query (integer x and y) with zoom outside
[minzoom, maxzoom] or x, y outside [0, 2^z) is rejected with 404 Out of
bounds. -/
theorem c7_coordinate_clamped_tile_rejected {D : Type} (repo : Repo)
    (id : String) (info : SourceInfo) (proj : Proj) (fetch : Fetch D)
    (elevFn : ElevFn D) (bboxFn : BBoxFn) (z : ℤ) (x y : ℚ)
    (hval : validateElevationSource repo id = .ok info)
    (hzz : info.minzoom ≤ info.maxzoom) :
    (¬ (isIntQ x = true ∧ isIntQ y = true) →
      elevationGetHandler repo proj fetch elevFn bboxFn id z x y =
        finishElevation info proj fetch elevFn x y z ∧
      info.minzoom ≤ clampZoom info.minzoom info.maxzoom ((z : ℤ) : ℚ) ∧
      clampZoom info.minzoom info.maxzoom ((z : ℤ) : ℚ) ≤ info.maxzoom ∧
      (getBatchElevations info proj fetch elevFn [⟨x, y, ((z : ℤ) : ℚ)⟩]).1 =
        [pointElev info proj fetch elevFn ⟨x, y, ((z : ℤ) : ℚ)⟩] ∧
      (∀ s m, elevationGetHandler repo proj fetch elevFn bboxFn id z x y ≠
        .errRes s m)) ∧
    ((isIntQ x = true ∧ isIntQ y = true) →
      ((z : ℚ) < info.minzoom ∨ (z : ℚ) > info.maxzoom ∨ x.num < 0 ∨
        y.num < 0 ∨ (x.num : ℚ) ≥ (2 : ℚ) ^ z ∨ (y.num : ℚ) ≥ (2 : ℚ) ^ z) →
      elevationGetHandler repo proj fetch elevFn bboxFn id z x y =
        .errRes 404 "Out of bounds") := by
  have hhandler : elevationGetHandler repo proj fetch elevFn bboxFn id z x y =
      if isIntQ x && isIntQ y then
        (if elevOutOfBounds info z x.num y.num then .errRes 404 "Out of bounds"
         else
           finishElevation info proj fetch elevFn
             (((bboxFn x.num y.num z).w + (bboxFn x.num y.num z).e) / 2)
             (((bboxFn x.num y.num z).s + (bboxFn x.num y.num z).n) / 2) z)
      else finishElevation info proj fetch elevFn x y z := by
    unfold elevationGetHandler
    rw [hval]
  constructor
  · intro hnint
    have hb : (isIntQ x && isIntQ y) = false := by
      rcases Bool.eq_false_or_eq_true (isIntQ x && isIntQ y) with h | h
      · rw [Bool.and_eq_true] at h
        exact absurd h hnint
      · exact h
    have heq : elevationGetHandler repo proj fetch elevFn bboxFn id z x y =
        finishElevation info proj fetch elevFn x y z := by
      rw [hhandler, hb]
      rfl
    refine ⟨heq, (clampZoom_mem _ _ _ hzz).1, (clampZoom_mem _ _ _ hzz).2,
      ?_, ?_⟩
    · rw [getBatchElevations_eq_map]
      rfl
    · intro s m
      rw [heq]
      exact finishElevation_ne_err info proj fetch elevFn x y z s m
  · intro hint hoob
    have hb : (isIntQ x && isIntQ y) = true := by
      rw [Bool.and_eq_true]
      exact hint
    have hcond : elevOutOfBounds info z x.num y.num = true := by
      unfold elevOutOfBounds
      rw [pow2z_eq]
      simp only [Bool.or_eq_true, decide_eq_true_eq]
      tauto
    rw [hhandler, hb]
    rw [if_pos rfl]
    rw [if_pos hcond]

/-- Witness for C7: coordinate mode with x = 1/2 (non-integer), and tile
mode at zoom 3 beyond maxzoom 2, over the concrete source. -/
theorem c7_witness :
    validateElevationSource repo0 "terrain" = .ok info0 ∧
    info0.minzoom ≤ info0.maxzoom ∧
    ((¬ (isIntQ (1/2 : ℚ) = true ∧ isIntQ (1/2 : ℚ) = true) →
      elevationGetHandler repo0 proj0 fetch0 elev0 (fun _ _ _ => ⟨0, 0, 0, 0⟩)
          "terrain" 3 (1/2 : ℚ) (1/2 : ℚ) =
        finishElevation info0 proj0 fetch0 elev0 (1/2 : ℚ) (1/2 : ℚ) 3 ∧
      info0.minzoom ≤ clampZoom info0.minzoom info0.maxzoom (((3 : ℤ)) : ℚ) ∧
      clampZoom info0.minzoom info0.maxzoom (((3 : ℤ)) : ℚ) ≤ info0.maxzoom ∧
      (getBatchElevations info0 proj0 fetch0 elev0
          [⟨(1/2 : ℚ), (1/2 : ℚ), ((3 : ℤ) : ℚ)⟩]).1 =
        [pointElev info0 proj0 fetch0 elev0
          ⟨(1/2 : ℚ), (1/2 : ℚ), ((3 : ℤ) : ℚ)⟩] ∧
      (∀ s m, elevationGetHandler repo0 proj0 fetch0 elev0
          (fun _ _ _ => ⟨0, 0, 0, 0⟩) "terrain" 3 (1/2 : ℚ) (1/2 : ℚ) ≠
        .errRes s m)) ∧
    ((isIntQ (1/2 : ℚ) = true ∧ isIntQ (1/2 : ℚ) = true) →
      (((3 : ℤ) : ℚ) < info0.minzoom ∨ ((3 : ℤ) : ℚ) > info0.maxzoom ∨
        (1/2 : ℚ).num < 0 ∨ (1/2 : ℚ).num < 0 ∨
        ((1/2 : ℚ).num : ℚ) ≥ (2 : ℚ) ^ (3 : ℤ) ∨
        ((1/2 : ℚ).num : ℚ) ≥ (2 : ℚ) ^ (3 : ℤ)) →
      elevationGetHandler repo0 proj0 fetch0 elev0 (fun _ _ _ => ⟨0, 0, 0, 0⟩)
          "terrain" 3 (1/2 : ℚ) (1/2 : ℚ) = .errRes 404 "Out of bounds")) :=
  ⟨rfl, by decide,
   c7_coordinate_clamped_tile_rejected repo0 "terrain" info0 proj0 fetch0
     elev0 (fun _ _ _ => ⟨0, 0, 0, 0⟩) 3 (1/2 : ℚ) (1/2 : ℚ) rfl (by decide)⟩

/-- A point of the POST body: a field is none when the supplied value is
not a finite number (or missing); a wholly absent object is modelled as a
none entry in the list. -/
structure RawPoint where
  lon : Option ℚ
  lat : Option ℚ
  z : Option ℚ
deriving DecidableEq, Repr

/-- validatePoint (part_000 lines 242-256): first failing check wins. -/
def validatePoint (op : Option RawPoint) (index : ℕ) : Option String :=
  match op with
  | none => some s!"Invalid point at index {index}: point must be an object"
  | some p =>
    match p.lon with
    | none => some s!"Invalid point at index {index}: lon must be a finite number"
    | some _ =>
      match p.lat with
      | none => some s!"Invalid point at index {index}: lat must be a finite number"
      | some _ =>
        match p.z with
        | none => some s!"Invalid point at index {index}: z must be a finite number"
        | some _ => none

/-- The per-point validation loop of the POST handler (part_000 lines
444-450): the first error aborts the request. -/
def firstPointError (pts : List (Option RawPoint)) (i : ℕ) : Option String :=
  match pts with
  | [] => none
  | p :: ps =>
    match validatePoint p i with
    | some msg => some msg
    | none => firstPointError ps (i + 1)

/-- A validated raw point as the EPoint handed to getBatchElevations (all
fields are some by the time this is reached). -/
def toEPoint (op : Option RawPoint) : EPoint :=
  match op with
  | none => ⟨0, 0, 0⟩
  | some p => ⟨p.lon.getD 0, p.lat.getD 0, p.z.getD 0⟩

/-- Response of the batch elevation POST handler. -/
inductive PostResp where
  | errRes (status : ℕ) (msg : String) : PostResp
  | okRes (results : List (Option ℚ)) : PostResp
deriving DecidableEq, Repr

/-- The batch elevation POST handler (part_000 lines 434-460).  The second
component is the list of tile keys fetched by the batch engine ([] when the
engine is never reached). -/
def elevationPostHandler {D : Type} (repo : Repo) (proj : Proj)
    (fetch : Fetch D) (elevFn : ElevFn D) (id : String)
    (body : Option (List (Option RawPoint))) : PostResp × List TileKey :=
  match validateElevationSource repo id with
  | .error e => (.errRes e.1 e.2, [])
  | .ok info =>
    match body with
    | none => (.errRes 400 "Missing or empty points array", [])
    | some pts =>
      if pts.isEmpty then (.errRes 400 "Missing or empty points array", [])
      else
        match firstPointError pts 0 with
        | some msg => (.errRes 400 msg, [])
        | none =>
          let res := getBatchElevations info proj fetch elevFn
            (pts.map toEPoint)
          (.okRes res.1, res.2)

/-- C10: a POST batch elevation request (against a validated source) whose
body has no points array or an empty points array is rejected with the
client error 400 'Missing or empty points array' before any per-point
validation, before any tile fetch (empty fetch log, and the answer does not
depend on the fetch function at all), and no result array is produced. -/
theorem c10_empty_points_rejected {D : Type} (repo : Repo) (proj : Proj)
    (fetch : Fetch D) (elevFn : ElevFn D) (id : String) (info : SourceInfo)
    (body : Option (List (Option RawPoint)))
    (hval : validateElevationSource repo id = .ok info)
    (hbody : body = none ∨ body = some []) :
    elevationPostHandler repo proj fetch elevFn id body =
      (.errRes 400 "Missing or empty points array", []) ∧
    (∀ fetch' : Fetch D,
      elevationPostHandler repo proj fetch' elevFn id body =
        (.errRes 400 "Missing or empty points array", [])) ∧
    (∀ rs l, elevationPostHandler repo proj fetch elevFn id body ≠
      (.okRes rs, l)) := by
  have hmain : ∀ fetch' : Fetch D,
      elevationPostHandler repo proj fetch' elevFn id body =
        (.errRes 400 "Missing or empty points array", []) := by
    intro fetch'
    unfold elevationPostHandler
    rw [hval]
    rcases hbody with rfl | rfl
    · rfl
    · rfl
  refine ⟨hmain fetch, hmain, ?_⟩
  intro rs l hc
  rw [hmain fetch] at hc
  have := congrArg Prod.fst hc
  exact PostResp.noConfusion this

/-- Witness for C10: empty points array over the concrete source. -/
theorem c10_witness :
    validateElevationSource repo0 "terrain" = .ok info0 ∧
    (elevationPostHandler repo0 proj0 fetch0 elev0 "terrain" (some []) =
      (.errRes 400 "Missing or empty points array", []) ∧
    (∀ fetch' : Fetch ℕ,
      elevationPostHandler repo0 proj0 fetch' elev0 "terrain" (some []) =
        (.errRes 400 "Missing or empty points array", [])) ∧
    (∀ rs l, elevationPostHandler repo0 proj0 fetch0 elev0 "terrain"
        (some []) ≠ (.okRes rs, l))) :=
  ⟨rfl, c10_empty_points_rejected repo0 proj0 fetch0 elev0 "terrain" info0
    (some []) rfl (Or.inr rfl)⟩

/-- The GeoJSON conversion of part_000 lines 143-161: for every layer (in
container order) and every feature within it (in order), convert the
feature through the external toGeoJSON(x, y, z) and attach the source layer
name as the feature's layer property; all features go into the one
collection. -/
def tileToGeoJSONFeatures {F B : Type} (toGJ : F → ℤ → ℤ → ℤ → B)
    (x y z : ℤ) : List (String × List F) → List (B × String)
  | [] => []
  | l :: ls => l.2.map (fun f => (toGJ f x y z, l.1)) ++
      tileToGeoJSONFeatures toGJ x y z ls

theorem filter_layer_len {F B : Type} (toGJ : F → ℤ → ℤ → ℤ → B)
    (x y z : ℤ) (nm ln : String) (fs : List F) :
    ((fs.map (fun f => (toGJ f x y z, ln))).filter
        (fun gf => gf.2 == nm)).length =
      if ln = nm then fs.length else 0 := by
  induction fs with
  | nil => by_cases h : ln = nm <;> simp [h]
  | cons f fs ih =>
      by_cases h : ln = nm
      · subst h
        simp [List.filter_cons, ih]
      · simp [List.filter_cons, h, ih]

theorem filter_tile_len_zero {F B : Type} (toGJ : F → ℤ → ℤ → ℤ → B)
    (x y z : ℤ) (nm : String) (ls : List (String × List F))
    (h : ∀ l ∈ ls, l.1 ≠ nm) :
    ((tileToGeoJSONFeatures toGJ x y z ls).filter
        (fun gf => gf.2 == nm)).length = 0 := by
  induction ls with
  | nil => rfl
  | cons l ls ih =>
      simp only [tileToGeoJSONFeatures, List.filter_append,
        List.length_append]
      rw [filter_layer_len, if_neg (h l (List.mem_cons_self _ _)),
        ih (fun l' hl' => h l' (List.mem_cons_of_mem _ hl'))]

theorem length_tileToGeoJSONFeatures {F B : Type} (toGJ : F → ℤ → ℤ → ℤ → B)
    (x y z : ℤ) (layers : List (String × List F)) :
    (tileToGeoJSONFeatures toGJ x y z layers).length =
      (layers.map (fun l => l.2.length)).sum := by
  induction layers with
  | nil => rfl
  | cons l ls ih => simp [tileToGeoJSONFeatures, ih]

/-- C8: converting a vector tile to GeoJSON produces one collection holding
every feature of every layer (total count is the sum of the per-layer
counts), each feature carrying the layer property equal to its source layer
name; re-grouping the features by their layer property therefore reproduces
each source layer's feature count. -/
theorem c8_geojson_layer_roundtrip {F B : Type} (toGJ : F → ℤ → ℤ → ℤ → B)
    (x y z : ℤ) (layers : List (String × List F))
    (hnd : (layers.map Prod.fst).Nodup) :
    (tileToGeoJSONFeatures toGJ x y z layers).length =
      (layers.map (fun l => l.2.length)).sum ∧
    (∀ nm fs, (nm, fs) ∈ layers →
      ((tileToGeoJSONFeatures toGJ x y z layers).filter
          (fun gf => gf.2 == nm)).length = fs.length) ∧
    (∀ gf ∈ tileToGeoJSONFeatures toGJ x y z layers,
      ∃ l ∈ layers, gf.2 = l.1 ∧ ∃ f ∈ l.2, gf.1 = toGJ f x y z) := by
  refine ⟨length_tileToGeoJSONFeatures toGJ x y z layers, ?_, ?_⟩
  · intro nm fs hm
    induction layers with
    | nil => cases hm
    | cons l ls ih =>
        rw [List.map_cons, List.nodup_cons] at hnd
        simp only [tileToGeoJSONFeatures, List.filter_append,
          List.length_append]
        rcases List.mem_cons.mp hm with heq | hmem
        · obtain rfl : l = (nm, fs) := heq.symm
          rw [filter_layer_len, if_pos rfl, filter_tile_len_zero, Nat.add_zero]
          intro l' hl' hc
          exact hnd.1 (hc ▸ List.mem_map.mpr ⟨l', hl', rfl⟩)
        · have hne : l.1 ≠ nm := by
            intro hc
            apply hnd.1
            rw [hc]
            exact List.mem_map.mpr ⟨(nm, fs), hmem, rfl⟩
          rw [filter_layer_len, if_neg hne, ih hnd.2 hmem, Nat.zero_add]
  · intro gf hgf
    induction layers with
    | nil => cases hgf
    | cons l ls ih =>
        rcases List.mem_append.mp hgf with hh | ht
        · obtain ⟨f, hf, rfl⟩ := List.mem_map.mp hh
          exact ⟨l, List.mem_cons_self _ _, rfl, f, hf, rfl⟩
        · obtain ⟨l', hl', h2, f, hf, h1⟩ := ih
            (List.Nodup.of_cons (by rwa [List.map_cons] at hnd)) ht
          exact ⟨l', List.mem_cons_of_mem _ hl', h2, f, hf, h1⟩

/-- Witness for C8 at a concrete two-layer tile. -/
theorem c8_witness :
    ((([("roads", [1, 2]), ("pois", [3])] :
        List (String × List ℕ)).map Prod.fst).Nodup) ∧
    ((tileToGeoJSONFeatures (fun f _ _ _ => f) 0 0 0
        [("roads", [1, 2]), ("pois", [3])]).length =
      (([("roads", [1, 2]), ("pois", [3])] :
        List (String × List ℕ)).map (fun l => l.2.length)).sum ∧
    (∀ nm fs, (nm, fs) ∈ ([("roads", [1, 2]), ("pois", [3])] :
        List (String × List ℕ)) →
      ((tileToGeoJSONFeatures (fun f _ _ _ => f) 0 0 0
          [("roads", [1, 2]), ("pois", [3])]).filter
          (fun gf => gf.2 == nm)).length = fs.length) ∧
    (∀ gf ∈ tileToGeoJSONFeatures (fun f _ _ _ => f) 0 0 0
        [("roads", [1, 2]), ("pois", [3])],
      ∃ l ∈ ([("roads", [1, 2]), ("pois", [3])] :
        List (String × List ℕ)), gf.2 = l.1 ∧
          ∃ f ∈ l.2, gf.1 = (fun (f : ℕ) (_ _ _ : ℤ) => f) f 0 0 0)) :=
  ⟨by decide,
   c8_geojson_layer_roundtrip (fun f _ _ _ => f) 0 0 0
     [("roads", [1, 2]), ("pois", [3])] (by decide)⟩

/-- The per-pixel terrain decode of the single-point elevation handler
(src/serve_data.js lines 300-308): mapbox
`-10000 + (red*256*256 + green*256 + blue) * 0.1`, terrarium
`red*256 + green + blue/256 - 32768`; any other encoding value falls
through to an invalid-encoding marker (none). -/
def decodeElevation (encoding : String) (red green blue : ℕ) : Option ℚ :=
  if encoding = "mapbox" then
    some (-10000 + ((red : ℚ) * 256 * 256 + (green : ℚ) * 256 + (blue : ℚ))
      * (1 / 10))
  else if encoding = "terrarium" then
    some ((red : ℚ) * 256 + (green : ℚ) + (blue : ℚ) / 256 - 32768)
  else none

/-- C9: for channel samples R, G, B in 0..255, the decoded elevation equals
-10000 + (R*65536 + G*256 + B) * 0.1 under the mapbox encoding, and
R*256 + G + B/256 - 32768 under the terrarium encoding. -/
theorem c9_decode_formulas (red green blue : ℕ) (hr : red ≤ 255)
    (hg : green ≤ 255) (hb : blue ≤ 255) :
    decodeElevation "mapbox" red green blue =
      some (-10000 + ((red : ℚ) * 65536 + (green : ℚ) * 256 + (blue : ℚ))
        * (1 / 10)) ∧
    decodeElevation "terrarium" red green blue =
      some ((red : ℚ) * 256 + (green : ℚ) + (blue : ℚ) / 256 - 32768) := by
  constructor
  · rw [decodeElevation, if_pos rfl]
    norm_num
    ring_nf
  · rw [decodeElevation, if_neg (by decide), if_pos rfl]

/-- Witness for C9 at (R, G, B) = (1, 134, 160): mapbox elevation 2000.0,
terrarium elevation -32122.375. -/
theorem c9_witness :
    (1 : ℕ) ≤ 255 ∧ (134 : ℕ) ≤ 255 ∧ (160 : ℕ) ≤ 255 ∧
    (decodeElevation "mapbox" 1 134 160 =
      some (-10000 + ((1 : ℚ) * 65536 + (134 : ℚ) * 256 + (160 : ℚ))
        * (1 / 10)) ∧
     decodeElevation "terrarium" 1 134 160 =
      some ((1 : ℚ) * 256 + (134 : ℚ) + (160 : ℚ) / 256 - 32768)) :=
  ⟨by decide, by decide, by decide,
   c9_decode_formulas 1 134 160 (by decide) (by decide) (by decide)⟩

end TileServer
